import Mathlib

/-!
# Verification of the LISP control-plane codec (py-lispnetworking, `lisp_layer.py`)

The source file declares scapy `Packet` classes (`LISP_Type`, `LISP_AFI_Address`,
`LISP_Locator_Record`, `LISP_MapRecord`, `LISP_MapRequestRecord`, `LISP_MapRequest`,
`LISP_MapReply`, `LISP_MapRegister`, `LISP_MapNotify`) by listing their fields.
We shallowly embed the codec these declarations define, working at bit level
(`List Bool`, most-significant bit first), since many fields are scapy bit fields
(`BitField`, `FlagsField`, `BitEnumField`) whose widths are not byte multiples.

Embedding conventions, matching the scapy field machinery the source uses:
* a decoder has type `List Bool → Option (α × List Bool)` returning the decoded
  value and the remaining input; a raised exception (e.g. `struct.error` on a
  short buffer, or unpacking a `None` returned by a field's `getfield`) is `none`;
* fixed-width integer fields backed by `struct` (`ByteField` "B", `ShortField` "H",
  `XLongField` "Q", and `FieldLenField` with fmt "B") fail on encode when the value
  is out of range (Python2 `struct.pack` raises), hence `writeField`;
* bit fields (`BitField`, `FlagsField`, `BitEnumField`) mask the value to their
  width on encode (scapy `BitField.addfield` does `val & ((1 << size) - 1)`),
  hence the total `writeBits`;
* `FieldLenField(name, default, "records", "B", count_of="records", adjust=a)`
  passes the list field name as the third positional argument `length_of`;
  scapy's `FieldLenField.i2m` uses the stored value when it is not `None` and
  otherwise applies `adjust` to `length_of`'s `i2len`, which for a
  `PacketListField` is the total byte length of the built records
  (`sum(len(p) for p in val)`).  `count_of` is shadowed and never consulted.
  We model the stored value as an `Option Nat` (`none` = Python `None`);
* `PacketListField(…, count_from=f)` parses records in a loop
  `while remain: if c <= 0: break; …` — it stops silently when the input is
  exhausted before `count_from` records were read (`parseList`);
* `ConditionalField(fld, cond)` skips the field (consuming nothing, yielding
  Python `None`) when `cond` is false;
* scapy's `Packet.do_dissect` runs `while s and flist:` — when the input is
  exhausted it STOPS, leaving every remaining field at its class default, and
  the dissection succeeds.  Our decoders therefore test `isEmpty` before each
  scalar field and complete the record with the class defaults.  Fields whose
  class default is Python `None` (the `LISP_AddressField`-backed addresses,
  `LISP_MapRegister.authentication_data`, and the `FieldLenField`s declared
  with default `None`) are modelled as `Option`s, `none` = Python `None`.
  No guard is needed before a `PacketListField` (its default `[]` equals what
  its loop returns on empty input), but one is needed before a `StrLenField`
  (default `None`, while reading zero bytes would give `""`);
* `LISP_MapNotify` declares `BitField("reserved_fields", 0, 12)` followed by
  a `ByteField`: the 12-bit field leaves `BitField.getfield`/`addfield`'s
  bit-carry tuple in the stream, and the following byte-oriented field raises
  `TypeError` on it.  Every Map-Notify build and every body dissection
  therefore raises before `notify_count` is reached: `LISP_MapNotify.encode`
  is constantly `none` and `LISP_MapNotify.decode` fails on every input;
* `Packet.do_dissect_payload` wraps the payload dissection in `try/except`
  and falls back to attaching the rest as a `Raw` payload; an EMPTY remainder
  attaches no payload at all.  `decode_message` models this with a
  `rawbody` fallback for every bound type and an empty-remainder guard.
-/

set_option maxRecDepth 100000

namespace LispCodec

/-- Value of a most-significant-bit-first bit string. -/
def bitsToNat : List Bool → Nat
  | [] => 0
  | b :: t => (if b then 1 else 0) * 2 ^ t.length + bitsToNat t

/-- The `n`-bit most-significant-bit-first representation of `v % 2 ^ n`. -/
def natToBits : Nat → Nat → List Bool
  | 0, _ => []
  | n + 1, v => natToBits n (v / 2) ++ [v % 2 == 1]

@[simp] theorem length_natToBits (n v : Nat) : (natToBits n v).length = n := by
  induction n generalizing v with
  | zero => rfl
  | succ n ih => simp [natToBits, ih]

theorem bitsToNat_append (xs ys : List Bool) :
    bitsToNat (xs ++ ys) = bitsToNat xs * 2 ^ ys.length + bitsToNat ys := by
  induction xs with
  | nil => simp [bitsToNat]
  | cons b t ih =>
      cases b <;> simp [bitsToNat, ih, pow_add] <;> ring

theorem bitsToNat_natToBits (n v : Nat) : bitsToNat (natToBits n v) = v % 2 ^ n := by
  induction n generalizing v with
  | zero => simp [natToBits, bitsToNat, Nat.mod_one]
  | succ n ih =>
      have hb : bitsToNat [v % 2 == 1] = v % 2 := by
        rcases Nat.mod_two_eq_zero_or_one v with h | h <;> simp [bitsToNat, h]
      rw [natToBits, bitsToNat_append, ih, hb]
      have key : v % 2 ^ (n + 1) = v % 2 + 2 * (v / 2 % 2 ^ n) := by
        rw [pow_succ, mul_comm (2 ^ n) 2, Nat.mod_mul]
      simp only [List.length_cons, List.length_nil, pow_one]
      omega

theorem bitsToNat_lt (s : List Bool) : bitsToNat s < 2 ^ s.length := by
  induction s with
  | nil => simp [bitsToNat]
  | cons b t ih =>
      simp only [bitsToNat, List.length_cons, pow_succ]
      cases b <;> simp <;> omega

/-- Read an `n`-bit big-endian unsigned integer; fails when fewer than `n` bits
remain (a fixed-width `struct.unpack`, or a scapy bit-field read, on a short
buffer raises). -/
def readBits (n : Nat) (s : List Bool) : Option (Nat × List Bool) :=
  if n ≤ s.length then some (bitsToNat (s.take n), s.drop n) else none

/-- Emit a scapy bit field (`BitField` / `FlagsField` / `BitEnumField`):
the value is masked to the field width, never rejected. -/
def writeBits (n v : Nat) : List Bool := natToBits n v

/-- Emit a `struct`-backed fixed-width field ("B"/"H"/"Q"): Python2
`struct.pack` raises when the value is out of range. -/
def writeField (n v : Nat) : Option (List Bool) :=
  if v < 2 ^ n then some (natToBits n v) else none

theorem readBits_append (n v : Nat) (r : List Bool) (h : v < 2 ^ n) :
    readBits n (natToBits n v ++ r) = some (v, r) := by
  have hlen : (natToBits n v).length = n := length_natToBits n v
  unfold readBits
  rw [if_pos (by simp [hlen]), List.take_left' hlen, List.drop_left' hlen,
    bitsToNat_natToBits, Nat.mod_eq_of_lt h]

theorem readBits_eq {n : Nat} {s r : List Bool} {v : Nat}
    (h : readBits n s = some (v, r)) :
    v = bitsToNat (s.take n) ∧ r = s.drop n ∧ n ≤ s.length := by
  unfold readBits at h
  split at h
  · simp only [Option.some.injEq, Prod.mk.injEq] at h
    exact ⟨h.1.symm, h.2.symm, by assumption⟩
  · exact absurd h (by simp)

theorem readBits_lt {n : Nat} {s r : List Bool} {v : Nat}
    (h : readBits n s = some (v, r)) : v < 2 ^ n := by
  obtain ⟨hv, _, hn⟩ := readBits_eq h
  have := bitsToNat_lt (s.take n)
  have hl : (s.take n).length = n := by simp [hn]
  rw [hv]
  calc bitsToNat (s.take n) < 2 ^ (s.take n).length := bitsToNat_lt _
    _ = 2 ^ n := by rw [hl]

/-- A scapy `PacketListField` with `count_from`: parse up to `c` records, but
stop silently once the input is exhausted (`while remain: if c <= 0: break`).
A record failing to dissect mid-way propagates the failure. -/
def parseList (dec : List Bool → Option (α × List Bool)) :
    Nat → List Bool → Option (List α × List Bool)
  | 0, s => some ([], s)
  | c + 1, s =>
      if s.isEmpty then some ([], [])
      else
        match dec s with
        | none => none
        | some (a, s') =>
            match parseList dec c s' with
            | none => none
            | some (l, r) => some (a :: l, r)

/-- Build each record of a `PacketListField` in order and concatenate
(`"".join(map(str, val))`). -/
def encodeList (enc : α → Option (List Bool)) : List α → Option (List Bool)
  | [] => some []
  | a :: t =>
      match enc a with
      | none => none
      | some e =>
          match encodeList enc t with
          | none => none
          | some rest => some (e ++ rest)

theorem parseList_le {dec : List Bool → Option (α × List Bool)} :
    ∀ {c : Nat} {s : List Bool} {l : List α} {r : List Bool},
      parseList dec c s = some (l, r) → l.length ≤ c ∧ (r ≠ [] → l.length = c) := by
  intro c
  induction c with
  | zero =>
      intro s l r h
      simp only [parseList, Option.some.injEq, Prod.mk.injEq] at h
      simp [← h.1]
  | succ c ih =>
      intro s l r h
      by_cases hs : s.isEmpty
      · simp only [parseList, hs, if_true, Option.some.injEq, Prod.mk.injEq] at h
        simp [← h.1, ← h.2]
      · cases hdec : dec s with
        | none => simp [parseList, hs, hdec] at h
        | some p =>
            obtain ⟨a, s'⟩ := p
            cases hrec : parseList dec c s' with
            | none => simp [parseList, hs, hdec, hrec] at h
            | some q =>
                obtain ⟨l', r'⟩ := q
                simp only [parseList, hs, if_false, hdec, hrec, Bool.false_eq_true,
                  Option.some.injEq, Prod.mk.injEq] at h
                obtain ⟨h1, h2⟩ := ih hrec
                obtain ⟨hl, hr⟩ := h
                subst hl hr
                refine ⟨by simpa using Nat.succ_le_succ h1, fun hne => by simp [h2 hne]⟩

theorem parseList_append {dec : List Bool → Option (α × List Bool)}
    {enc : α → Option (List Bool)} :
    ∀ (l : List α) (out : List Bool),
      encodeList enc l = some out →
      (∀ a ∈ l, ∃ e, enc a = some e ∧ e ≠ [] ∧ ∀ r, dec (e ++ r) = some (a, r)) →
      ∀ r, parseList dec l.length (out ++ r) = some (l, r) := by
  intro l
  induction l with
  | nil =>
      intro out hout _ r
      obtain hE : out = [] := by simp_all [encodeList]
      subst hE
      simp [parseList]
  | cons a t ih =>
      intro out hout hall r
      obtain ⟨e, he, hene, hdece⟩ := hall a (by simp)
      cases hrest : encodeList enc t with
      | none => simp [encodeList, he, hrest] at hout
      | some rest =>
          obtain hO : out = e ++ rest := by
            simp only [encodeList, he, hrest, Option.some.injEq] at hout
            exact hout.symm
          subst hO
          have hcond : (e ++ (rest ++ r)).isEmpty = false := by
            cases e with
            | nil => exact absurd rfl hene
            | cons x xs => rfl
          have hih := ih rest hrest (fun x hx => hall x (by simp [hx])) r
          have hstep := hdece (rest ++ r)
          simp only [List.length_cons, parseList, List.append_assoc, hcond,
            Bool.false_eq_true, if_false, hstep, hih]

theorem encodeList_exists {enc : α → Option (List Bool)} :
    ∀ {l : List α}, (∀ a ∈ l, ∃ e, enc a = some e) →
      ∃ out, encodeList enc l = some out := by
  intro l
  induction l with
  | nil => exact fun _ => ⟨[], rfl⟩
  | cons a t ih =>
      intro hall
      obtain ⟨e, he⟩ := hall a (by simp)
      obtain ⟨rest, hrest⟩ := ih fun x hx => hall x (by simp [hx])
      exact ⟨e ++ rest, by simp [encodeList, he, hrest]⟩

/-- scapy `FieldLenField.i2m`: use the stored value when it is not Python
`None`; otherwise apply `adjust` to the byte length of the built list
(`length_of` shadows `count_of`, and `PacketListField.i2len` sums the built
byte length of the records).  Computed over `Int` because the source's
`adjust` lambdas can go negative under Python2 arithmetic. -/
def fieldLenI2m (stored : Option Nat) (adjust : Int → Int) (byteLen : Nat) : Int :=
  match stored with
  | some x => (x : Int)
  | none => adjust (byteLen : Int)

/-- Emit a `FieldLenField` with fmt "B": Python2 `struct.pack("!B", v)` raises
unless `0 <= v <= 255`. -/
def writeFieldLen (stored : Option Nat) (adjust : Int → Int) (byteLen : Nat) :
    Option (List Bool) :=
  let v := fieldLenI2m stored adjust byteLen
  if 0 ≤ v ∧ v < 256 then some (natToBits 8 v.toNat) else none

theorem writeFieldLen_some {k : Nat} (adjust : Int → Int) (byteLen : Nat)
    (hk : k < 256) :
    writeFieldLen (some k) adjust byteLen = some (natToBits 8 k) := by
  have h0 : (0 : Int) ≤ (k : Int) := Int.natCast_nonneg k
  have h256 : (k : Int) < 256 := by exact_mod_cast hk
  simp [writeFieldLen, fieldLenI2m, h0, h256]

/-! ## End-of-input and emptiness helpers

scapy's `Packet.do_dissect` runs `while s and flist:` — it stops as soon as
the input is exhausted and leaves every remaining field at its class default
(the dissection still succeeds).  A field that does run on a non-empty but
too-short buffer raises (`struct.error`), which we model as `none`.  The
decoders below therefore test for an empty remainder before every field and
complete the packet with the class defaults when it is; fields whose class
default is Python `None` are `Option`-valued. -/

theorem isEmpty_append {α : Type _} (l₁ l₂ : List α) :
    (l₁ ++ l₂).isEmpty = (l₁.isEmpty && l₂.isEmpty) := by
  cases l₁ <;> cases l₂ <;> rfl

theorem isEmpty_false_of_ne_nil {α : Type _} {l : List α} (h : l ≠ []) :
    l.isEmpty = false := by
  cases l with
  | nil => exact absurd rfl h
  | cons a t => rfl

theorem isEmpty_natToBits {n : Nat} (v : Nat) (h : n ≠ 0) :
    (natToBits n v).isEmpty = false := by
  apply isEmpty_false_of_ne_nil
  intro hc
  have hl := length_natToBits n v
  rw [hc] at hl
  simp at hl
  omega

theorem readBits_zero (s : List Bool) : readBits 0 s = some (0, s) := by
  simp [readBits, bitsToNat]

theorem encodeList_isEmpty_false {enc : α → Option (List Bool)} {l : List α}
    {out : List Bool} (h : encodeList enc l = some out) (hl : l ≠ [])
    (helem : ∀ a ∈ l, ∃ e, enc a = some e ∧ e ≠ []) : out.isEmpty = false := by
  cases l with
  | nil => exact absurd rfl hl
  | cons a t =>
      obtain ⟨e, he, hene⟩ := helem a (by simp)
      cases hrest : encodeList enc t with
      | none => simp [encodeList, he, hrest] at h
      | some rest =>
          obtain hO : out = e ++ rest := by
            simp only [encodeList, he, hrest, Option.some.injEq] at h
            exact h.symm
          subst hO
          rw [isEmpty_append, isEmpty_false_of_ne_nil hene]
          rfl

/-! ## The address field

`LISP_AddressField` (src 88–106) dispatches on the value of the AFI field that
precedes it. -/

namespace LISP_AddressField

/-- `getfield` (src 96–100): AFI 1 (`_AFI["ipv4"]`) reads a 4-byte `IPField`,
AFI 2 (`_AFI["ipv6"]`) a 16-byte `IP6Field`.  Any other AFI value — including
the "unspecified" AFI 0 — falls off the end of the method, so Python returns
`None` instead of a `(remaining, value)` pair and the enclosing dissection
blows up: modelled as `none`.  (The field can also simply never run, when the
input is exhausted before it — that case is handled by the caller's
end-of-input check, mirroring `do_dissect`.) -/
def getfield (afi : Nat) (s : List Bool) : Option (Nat × List Bool) :=
  if afi = 1 then readBits 32 s
  else if afi = 2 then readBits 128 s
  else none

/-- `addfield` (src 102–106), the build path.  The stored value is `Option`:
the field's class default is Python `None`, and building an unset address
raises inside `IPField.i2m`/`inet_aton`; an AFI other than 1 or 2 again
returns Python `None`, which breaks the build.  Both are `none`. -/
def addfield (afi : Nat) (addr : Option Nat) : Option (List Bool) :=
  if afi = 1 then
    match addr with
    | some a => writeField 32 a
    | none => none
  else if afi = 2 then
    match addr with
    | some a => writeField 128 a
    | none => none
  else none

end LISP_AddressField

/-- The (afi, address) pairs the address field round-trips: a supported family
with an address value that fits the family's width. -/
def addrValid (afi addr : Nat) : Prop :=
  (afi = 1 ∧ addr < 2 ^ 32) ∨ (afi = 2 ∧ addr < 2 ^ 128)

instance (afi addr : Nat) : Decidable (addrValid afi addr) := by
  unfold addrValid; infer_instance

/-- A present, well-formed address value for an `Option`-valued address
field (the class default `None` is not encodable). -/
def addrFieldValid (afi : Nat) : Option Nat → Prop
  | some a => addrValid afi a
  | none => False

instance (afi : Nat) (o : Option Nat) : Decidable (addrFieldValid afi o) :=
  match o with
  | none => isFalse id
  | some a => inferInstanceAs (Decidable (addrValid afi a))

theorem addr_rt {afi a : Nat} (h : addrValid afi a) :
    ∃ e, LISP_AddressField.addfield afi (some a) = some e ∧ e ≠ [] ∧
      ∀ r, LISP_AddressField.getfield afi (e ++ r) = some (a, r) := by
  rcases h with ⟨h1, hb⟩ | ⟨h2, hb⟩
  · subst h1
    refine ⟨natToBits 32 a, ?_, ?_, fun r => ?_⟩
    · simp [LISP_AddressField.addfield, writeField, hb, -Nat.reducePow]
    · intro hc
      have := congrArg List.length hc
      simp at this
    · simp [LISP_AddressField.getfield, readBits_append _ _ _ hb]
  · subst h2
    refine ⟨natToBits 128 a, ?_, ?_, fun r => ?_⟩
    · simp [LISP_AddressField.addfield, writeField, hb, -Nat.reducePow]
    · intro hc
      have := congrArg List.length hc
      simp at this
    · simp [LISP_AddressField.getfield, readBits_append _ _ _ hb]

theorem afi_lt_of_addrValid {afi a : Nat} (h : addrValid afi a) :
    afi < 2 ^ 16 := by
  rcases h with ⟨h1, _⟩ | ⟨h2, _⟩ <;> omega

/-! ## `LISP_AFI_Address` (src 111–120): one ITR-RLOC entry -/

/-- `LISP_AFI_Address`: `ShortField("lispafi", 0)` then
`LISP_AddressField("lispafi", "lispaddress")`.  Class defaults: `lispafi = 0`,
`lispaddress = None` (an address field's default is Python `None`). -/
structure LISP_AFI_Address where
  lispafi : Nat
  lispaddress : Option Nat
deriving DecidableEq, Repr

namespace LISP_AFI_Address

/-- Dissect one entry, mirroring `do_dissect`: stop (successfully, with the
remaining fields at their class defaults) when the input is exhausted at a
field boundary; fail when a field runs but cannot complete. -/
def decode (s : List Bool) : Option (LISP_AFI_Address × List Bool) :=
  if s.isEmpty then some (⟨0, none⟩, [])
  else match readBits 16 s with
  | none => none
  | some (afi, s1) =>
  if s1.isEmpty then some (⟨afi, none⟩, [])
  else match LISP_AddressField.getfield afi s1 with
  | none => none
  | some (addr, s2) => some (⟨afi, some addr⟩, s2)

def encode (x : LISP_AFI_Address) : Option (List Bool) :=
  match writeField 16 x.lispafi with
  | none => none
  | some f1 =>
  match LISP_AddressField.addfield x.lispafi x.lispaddress with
  | none => none
  | some f2 => some (f1 ++ f2)

def valid (x : LISP_AFI_Address) : Prop :=
  addrFieldValid x.lispafi x.lispaddress

instance : DecidablePred valid := fun x => by unfold valid; infer_instance

theorem afiAddr_rt {x : LISP_AFI_Address} (h : x.valid) :
    ∃ e, x.encode = some e ∧ e ≠ [] ∧ ∀ r, decode (e ++ r) = some (x, r) := by
  unfold valid at h
  cases hxa : x.lispaddress with
  | none => rw [hxa] at h; exact h.elim
  | some a =>
      rw [hxa] at h
      simp only [addrFieldValid] at h
      obtain ⟨ea, hea, hene, hga⟩ := addr_rt h
      have hafi := afi_lt_of_addrValid h
      refine ⟨natToBits 16 x.lispafi ++ ea, ?_, ?_, fun r => ?_⟩
      · simp [encode, writeField, hafi, hxa, hea, -Nat.reducePow]
      · intro hc
        have := congrArg List.length hc
        simp at this
      · simp [decode, List.append_assoc, readBits_append _ _ _ hafi, hga,
          isEmpty_append, isEmpty_natToBits, isEmpty_false_of_ne_nil hene,
          hxa.symm, -Nat.reducePow]

end LISP_AFI_Address

/-! ## `LISP_Locator_Record` (src 123–138) -/

/-- `LISP_Locator_Record`: four `ByteField`s (defaults 0), a 13-bit reserved
`BitField` (default 0), a 3-bit `FlagsField` (default 0), a `ShortField` AFI
(default 0) and the address field (default `None`). -/
structure LISP_Locator_Record where
  priority : Nat
  weight : Nat
  multicast_priority : Nat
  multicast_weight : Nat
  reserved : Nat
  locator_flags : Nat
  locator_afi : Nat
  locator_address : Option Nat
deriving DecidableEq, Repr

namespace LISP_Locator_Record

def decode (s : List Bool) : Option (LISP_Locator_Record × List Bool) :=
  if s.isEmpty then some (⟨0, 0, 0, 0, 0, 0, 0, none⟩, [])
  else match readBits 8 s with
  | none => none
  | some (prio, s1) =>
  if s1.isEmpty then some (⟨prio, 0, 0, 0, 0, 0, 0, none⟩, [])
  else match readBits 8 s1 with
  | none => none
  | some (w, s2) =>
  if s2.isEmpty then some (⟨prio, w, 0, 0, 0, 0, 0, none⟩, [])
  else match readBits 8 s2 with
  | none => none
  | some (mp, s3) =>
  if s3.isEmpty then some (⟨prio, w, mp, 0, 0, 0, 0, none⟩, [])
  else match readBits 8 s3 with
  | none => none
  | some (mw, s4) =>
  if s4.isEmpty then some (⟨prio, w, mp, mw, 0, 0, 0, none⟩, [])
  else match readBits 13 s4 with
  | none => none
  | some (rsv, s5) =>
  if s5.isEmpty then some (⟨prio, w, mp, mw, rsv, 0, 0, none⟩, [])
  else match readBits 3 s5 with
  | none => none
  | some (fl, s6) =>
  if s6.isEmpty then some (⟨prio, w, mp, mw, rsv, fl, 0, none⟩, [])
  else match readBits 16 s6 with
  | none => none
  | some (afi, s7) =>
  if s7.isEmpty then some (⟨prio, w, mp, mw, rsv, fl, afi, none⟩, [])
  else match LISP_AddressField.getfield afi s7 with
  | none => none
  | some (addr, s8) => some (⟨prio, w, mp, mw, rsv, fl, afi, some addr⟩, s8)

def encode (x : LISP_Locator_Record) : Option (List Bool) :=
  match writeField 8 x.priority with
  | none => none
  | some f1 =>
  match writeField 8 x.weight with
  | none => none
  | some f2 =>
  match writeField 8 x.multicast_priority with
  | none => none
  | some f3 =>
  match writeField 8 x.multicast_weight with
  | none => none
  | some f4 =>
  match writeField 16 x.locator_afi with
  | none => none
  | some f5 =>
  match LISP_AddressField.addfield x.locator_afi x.locator_address with
  | none => none
  | some f6 =>
      some (f1 ++ f2 ++ f3 ++ f4 ++ writeBits 13 x.reserved ++
        writeBits 3 x.locator_flags ++ f5 ++ f6)

def valid (x : LISP_Locator_Record) : Prop :=
  x.priority < 2 ^ 8 ∧ x.weight < 2 ^ 8 ∧ x.multicast_priority < 2 ^ 8 ∧
  x.multicast_weight < 2 ^ 8 ∧ x.reserved < 2 ^ 13 ∧ x.locator_flags < 2 ^ 3 ∧
  addrFieldValid x.locator_afi x.locator_address

instance : DecidablePred valid := fun x => by unfold valid; infer_instance

theorem locator_rt {x : LISP_Locator_Record} (h : x.valid) :
    ∃ e, x.encode = some e ∧ e ≠ [] ∧ ∀ r, decode (e ++ r) = some (x, r) := by
  obtain ⟨h1, h2, h3, h4, h5, h6, ha⟩ := h
  cases hxa : x.locator_address with
  | none => rw [hxa] at ha; exact ha.elim
  | some a =>
      rw [hxa] at ha
      simp only [addrFieldValid] at ha
      obtain ⟨ea, hea, hene, hga⟩ := addr_rt ha
      have hafi := afi_lt_of_addrValid ha
      refine ⟨natToBits 8 x.priority ++ natToBits 8 x.weight ++
        natToBits 8 x.multicast_priority ++ natToBits 8 x.multicast_weight ++
        natToBits 13 x.reserved ++ natToBits 3 x.locator_flags ++
        natToBits 16 x.locator_afi ++ ea, ?_, ?_, fun r => ?_⟩
      · simp [encode, writeField, writeBits, h1, h2, h3, h4, hafi, hxa, hea,
          -Nat.reducePow]
      · intro hc
        have := congrArg List.length hc
        simp at this
      · simp [decode, List.append_assoc, readBits_append, h1, h2, h3, h4, h5,
          h6, hafi, hga, isEmpty_append, isEmpty_natToBits,
          isEmpty_false_of_ne_nil hene, hxa.symm, -Nat.reducePow]

end LISP_Locator_Record

/-! ## `LISP_MapRequestRecord` (src 162–175) -/

/-- `LISP_MapRequestRecord`: reserved `ByteField` (default 0), EID mask length
`ByteField` (default 0), `ShortField` AFI (default 0), address field
(default `None`). -/
structure LISP_MapRequestRecord where
  reserved : Nat
  eid_mask_len : Nat
  request_afi : Nat
  request_address : Option Nat
deriving DecidableEq, Repr

namespace LISP_MapRequestRecord

def decode (s : List Bool) : Option (LISP_MapRequestRecord × List Bool) :=
  if s.isEmpty then some (⟨0, 0, 0, none⟩, [])
  else match readBits 8 s with
  | none => none
  | some (rsv, s1) =>
  if s1.isEmpty then some (⟨rsv, 0, 0, none⟩, [])
  else match readBits 8 s1 with
  | none => none
  | some (ml, s2) =>
  if s2.isEmpty then some (⟨rsv, ml, 0, none⟩, [])
  else match readBits 16 s2 with
  | none => none
  | some (afi, s3) =>
  if s3.isEmpty then some (⟨rsv, ml, afi, none⟩, [])
  else match LISP_AddressField.getfield afi s3 with
  | none => none
  | some (addr, s4) => some (⟨rsv, ml, afi, some addr⟩, s4)

def encode (x : LISP_MapRequestRecord) : Option (List Bool) :=
  match writeField 8 x.reserved with
  | none => none
  | some f1 =>
  match writeField 8 x.eid_mask_len with
  | none => none
  | some f2 =>
  match writeField 16 x.request_afi with
  | none => none
  | some f3 =>
  match LISP_AddressField.addfield x.request_afi x.request_address with
  | none => none
  | some f4 => some (f1 ++ f2 ++ f3 ++ f4)

def valid (x : LISP_MapRequestRecord) : Prop :=
  x.reserved < 2 ^ 8 ∧ x.eid_mask_len < 2 ^ 8 ∧
  addrFieldValid x.request_afi x.request_address

instance : DecidablePred valid := fun x => by unfold valid; infer_instance

theorem reqRecord_rt {x : LISP_MapRequestRecord} (h : x.valid) :
    ∃ e, x.encode = some e ∧ e ≠ [] ∧ ∀ r, decode (e ++ r) = some (x, r) := by
  obtain ⟨h1, h2, ha⟩ := h
  cases hxa : x.request_address with
  | none => rw [hxa] at ha; exact ha.elim
  | some a =>
      rw [hxa] at ha
      simp only [addrFieldValid] at ha
      obtain ⟨ea, hea, hene, hga⟩ := addr_rt ha
      have hafi := afi_lt_of_addrValid ha
      refine ⟨natToBits 8 x.reserved ++ natToBits 8 x.eid_mask_len ++
        natToBits 16 x.request_afi ++ ea, ?_, ?_, fun r => ?_⟩
      · simp [encode, writeField, h1, h2, hafi, hxa, hea, -Nat.reducePow]
      · intro hc
        have := congrArg List.length hc
        simp at this
      · simp [decode, List.append_assoc, readBits_append, h1, h2, hafi, hga,
          isEmpty_append, isEmpty_natToBits, isEmpty_false_of_ne_nil hene,
          hxa.symm, -Nat.reducePow]

end LISP_MapRequestRecord

/-! ## `LISP_MapRecord` (src 141–159) -/

/-- `LISP_MapRecord`: 32-bit TTL `BitField` (default 0),
`FieldLenField("locator_count", 0, "locators", "B", count_of="locators")`
(class default 0, i.e. `some 0`; a stored Python `None` is `none`), EID prefix
length `ByteField` (default 0), 3-bit action `BitEnumField`, 1-bit
authoritative, 16 reserved bits, 12-bit map version (defaults 0), `ShortField`
EID AFI (default 0), address field (default `None`), then a `PacketListField`
of locators (default `[]`) with `count_from = pkt.locator_count`. -/
structure LISP_MapRecord where
  record_ttl : Nat
  locator_count : Option Nat
  eid_prefix_length : Nat
  action : Nat
  authoritative : Nat
  reserved : Nat
  map_version_number : Nat
  record_afi : Nat
  record_address : Option Nat
  locators : List LISP_Locator_Record
deriving DecidableEq, Repr

namespace LISP_MapRecord

/-- Dissect one Map-Record, mirroring `do_dissect`: at each field boundary an
exhausted input ends the dissection successfully with the remaining fields at
their class defaults.  (No such check is needed before the trailing
`PacketListField`: its own loop returns `[]`, the class default, on empty
input.) -/
def decode (s : List Bool) : Option (LISP_MapRecord × List Bool) :=
  if s.isEmpty then some (⟨0, some 0, 0, 0, 0, 0, 0, 0, none, []⟩, [])
  else match readBits 32 s with
  | none => none
  | some (ttl, s1) =>
  if s1.isEmpty then some (⟨ttl, some 0, 0, 0, 0, 0, 0, 0, none, []⟩, [])
  else match readBits 8 s1 with
  | none => none
  | some (lc, s2) =>
  if s2.isEmpty then some (⟨ttl, some lc, 0, 0, 0, 0, 0, 0, none, []⟩, [])
  else match readBits 8 s2 with
  | none => none
  | some (epl, s3) =>
  if s3.isEmpty then some (⟨ttl, some lc, epl, 0, 0, 0, 0, 0, none, []⟩, [])
  else match readBits 3 s3 with
  | none => none
  | some (act, s4) =>
  if s4.isEmpty then some (⟨ttl, some lc, epl, act, 0, 0, 0, 0, none, []⟩, [])
  else match readBits 1 s4 with
  | none => none
  | some (aut, s5) =>
  if s5.isEmpty then some (⟨ttl, some lc, epl, act, aut, 0, 0, 0, none, []⟩, [])
  else match readBits 16 s5 with
  | none => none
  | some (rsv, s6) =>
  if s6.isEmpty then
    some (⟨ttl, some lc, epl, act, aut, rsv, 0, 0, none, []⟩, [])
  else match readBits 12 s6 with
  | none => none
  | some (mvn, s7) =>
  if s7.isEmpty then
    some (⟨ttl, some lc, epl, act, aut, rsv, mvn, 0, none, []⟩, [])
  else match readBits 16 s7 with
  | none => none
  | some (afi, s8) =>
  if s8.isEmpty then
    some (⟨ttl, some lc, epl, act, aut, rsv, mvn, afi, none, []⟩, [])
  else match LISP_AddressField.getfield afi s8 with
  | none => none
  | some (addr, s9) =>
  match parseList LISP_Locator_Record.decode lc s9 with
  | none => none
  | some (locs, s10) =>
      some (⟨ttl, some lc, epl, act, aut, rsv, mvn, afi, some addr, locs⟩, s10)

def encode (x : LISP_MapRecord) : Option (List Bool) :=
  match encodeList LISP_Locator_Record.encode x.locators with
  | none => none
  | some locsOut =>
  match writeFieldLen x.locator_count (fun v => v) (locsOut.length / 8) with
  | none => none
  | some f2 =>
  match writeField 8 x.eid_prefix_length with
  | none => none
  | some f3 =>
  match writeField 16 x.record_afi with
  | none => none
  | some f8 =>
  match LISP_AddressField.addfield x.record_afi x.record_address with
  | none => none
  | some f9 =>
      some (writeBits 32 x.record_ttl ++ f2 ++ f3 ++ writeBits 3 x.action ++
        writeBits 1 x.authoritative ++ writeBits 16 x.reserved ++
        writeBits 12 x.map_version_number ++ f8 ++ f9 ++ locsOut)

def valid (x : LISP_MapRecord) : Prop :=
  x.record_ttl < 2 ^ 32 ∧ x.locator_count = some x.locators.length ∧
  x.locators.length < 256 ∧ x.eid_prefix_length < 2 ^ 8 ∧ x.action < 2 ^ 3 ∧
  x.authoritative < 2 ∧ x.reserved < 2 ^ 16 ∧
  x.map_version_number < 2 ^ 12 ∧ addrFieldValid x.record_afi x.record_address ∧
  ∀ loc ∈ x.locators, loc.valid

instance : DecidablePred valid := fun x => by unfold valid; infer_instance

theorem mapRecord_rt {x : LISP_MapRecord} (h : x.valid) :
    ∃ e, x.encode = some e ∧ e ≠ [] ∧ ∀ r, decode (e ++ r) = some (x, r) := by
  obtain ⟨h1, hlc, hlen, h3, h4, h5, h6, h7, ha, hlocs⟩ := h
  cases hxa : x.record_address with
  | none => rw [hxa] at ha; exact ha.elim
  | some a =>
  rw [hxa] at ha
  simp only [addrFieldValid] at ha
  obtain ⟨ea, hea, hene, hga⟩ := addr_rt ha
  have hafi := afi_lt_of_addrValid ha
  have helem : ∀ loc ∈ x.locators, ∃ e, LISP_Locator_Record.encode loc = some e ∧
      e ≠ [] ∧ ∀ r, LISP_Locator_Record.decode (e ++ r) = some (loc, r) :=
    fun loc hloc => LISP_Locator_Record.locator_rt (hlocs loc hloc)
  obtain ⟨locsOut, hlout⟩ :=
    encodeList_exists fun loc hloc => ⟨_, (helem loc hloc).choose_spec.1⟩
  have hcount : x.locators.length < 2 ^ 8 := by omega
  have hwfl := writeFieldLen_some (k := x.locators.length) (fun v => v)
    (locsOut.length / 8) hlen
  have hpl := parseList_append x.locators locsOut hlout helem
  refine ⟨writeBits 32 x.record_ttl ++ natToBits 8 x.locators.length ++
    natToBits 8 x.eid_prefix_length ++ writeBits 3 x.action ++
    writeBits 1 x.authoritative ++ writeBits 16 x.reserved ++
    writeBits 12 x.map_version_number ++ natToBits 16 x.record_afi ++ ea ++
    locsOut, ?_, ?_, fun r => ?_⟩
  · simp [encode, hlout, hlc, hwfl, writeField, writeBits, h3, hafi, hxa, hea,
      -Nat.reducePow]
  · intro hc
    have := congrArg List.length hc
    simp at this
  · simp [decode, writeBits, List.append_assoc, readBits_append, h1, hcount,
      h3, h4, h5, h6, h7, hafi, hga, hpl, hlc.symm, hxa.symm, isEmpty_append,
      isEmpty_natToBits, isEmpty_false_of_ne_nil hene, -Nat.reducePow]

end LISP_MapRecord

/-! ## Byte strings (`StrLenField`) and the conditional source address -/

/-- A Python byte string laid out on the wire, byte by byte (`StrField.i2m`
emits the string unchanged; each byte is its 8-bit pattern). -/
def bytesToBits : List Nat → List Bool
  | [] => []
  | b :: t => natToBits 8 b ++ bytesToBits t

/-- Regroup a bit string into bytes, dropping a trailing partial byte —
the inverse view a dissected byte string presents. -/
def bitsToBytes : List Bool → List Nat
  | b0 :: b1 :: b2 :: b3 :: b4 :: b5 :: b6 :: b7 :: t =>
      bitsToNat [b0, b1, b2, b3, b4, b5, b6, b7] :: bitsToBytes t
  | _ => []

/-- `StrLenField(…, length_from = lambda pkt: pkt.authentication_length)`:
Python slicing `s[:l], s[l:]` — silently short when the buffer is. -/
def readStr (len : Nat) (s : List Bool) : List Nat × List Bool :=
  (bitsToBytes (s.take (8 * len)), s.drop (8 * len))

/-- `StrField.i2m` on the build side: a stored Python `None` (the class
default) is emitted as the empty string. -/
def strI2m : Option (List Nat) → List Nat
  | none => []
  | some d => d

@[simp] theorem length_bytesToBits (l : List Nat) :
    (bytesToBits l).length = 8 * l.length := by
  induction l with
  | nil => rfl
  | cons b t ih => simp [bytesToBits, ih]; ring

theorem bitsToBytes_chunk (c t : List Bool) (hc : c.length = 8) :
    bitsToBytes (c ++ t) = bitsToNat c :: bitsToBytes t := by
  rcases c with _ | ⟨b0, c⟩; · simp at hc
  rcases c with _ | ⟨b1, c⟩; · simp at hc
  rcases c with _ | ⟨b2, c⟩; · simp at hc
  rcases c with _ | ⟨b3, c⟩; · simp at hc
  rcases c with _ | ⟨b4, c⟩; · simp at hc
  rcases c with _ | ⟨b5, c⟩; · simp at hc
  rcases c with _ | ⟨b6, c⟩; · simp at hc
  rcases c with _ | ⟨b7, c⟩; · simp at hc
  rcases c with _ | ⟨b8, c⟩
  · rfl
  · simp at hc

theorem bitsToBytes_bytesToBits {l : List Nat} (h : ∀ b ∈ l, b < 256) :
    bitsToBytes (bytesToBits l) = l := by
  induction l with
  | nil => rfl
  | cons b t ih =>
      rw [bytesToBits, bitsToBytes_chunk _ _ (length_natToBits 8 b),
        bitsToNat_natToBits, ih fun x hx => h x (by simp [hx])]
      have hb : b < 256 := h b (by simp)
      congr 1
      omega

theorem readStr_append {data : List Nat} (r : List Bool)
    (h : ∀ b ∈ data, b < 256) :
    readStr data.length (bytesToBits data ++ r) = (data, r) := by
  have hlen : (bytesToBits data).length = 8 * data.length := length_bytesToBits data
  unfold readStr
  rw [List.take_left' hlen, List.drop_left' hlen, bitsToBytes_bytesToBits h]

/-- A present, wire-consistent authentication-data value: the stored length
field matches the byte string (the class default `None` is excluded, as are
strings the 16-bit length field cannot describe). -/
def authFieldValid (alen : Nat) : Option (List Nat) → Prop
  | some d => alen = d.length ∧ d.length < 2 ^ 16 ∧ ∀ b ∈ d, b < 256
  | none => False

instance (alen : Nat) (o : Option (List Nat)) :
    Decidable (authFieldValid alen o) :=
  match o with
  | none => isFalse id
  | some d =>
      inferInstanceAs
        (Decidable (alen = d.length ∧ d.length < 2 ^ 16 ∧ ∀ b ∈ d, b < 256))

/-- `ConditionalField(LISP_AddressField("source_afi", "source_address"),
lambda pkt: pkt.source_afi != 0)` (src 190), dissection side: when the
condition is false the field is skipped (nothing consumed, value `None`). -/
def condSourceGetfield (afi : Nat) (s : List Bool) :
    Option (Option Nat × List Bool) :=
  if afi ≠ 0 then
    match LISP_AddressField.getfield afi s with
    | none => none
    | some (a, s1) => some (some a, s1)
  else some (none, s)

/-- Build side of the conditional source address: skipped (no bytes) when the
AFI is 0; with a nonzero AFI the inner address field runs (and an unset
address value makes the build raise, as in `LISP_AddressField.addfield`). -/
def condSourceAddfield (afi : Nat) (addr : Option Nat) : Option (List Bool) :=
  if afi ≠ 0 then LISP_AddressField.addfield afi addr
  else some []

/-- The source-address configurations an encodable Map-Request can hold:
AFI 0 carries no address, a supported AFI carries a fitting one. -/
def condSourceValid (afi : Nat) : Option Nat → Prop
  | none => afi = 0
  | some a => addrValid afi a

instance (afi : Nat) (addr : Option Nat) :
    Decidable (condSourceValid afi addr) :=
  match addr with
  | none => inferInstanceAs (Decidable (afi = 0))
  | some a => inferInstanceAs (Decidable (addrValid afi a))

theorem condSource_rt {afi : Nat} {addr : Option Nat}
    (h : condSourceValid afi addr) :
    ∃ e, condSourceAddfield afi addr = some e ∧
      ∀ r, condSourceGetfield afi (e ++ r) = some (addr, r) := by
  cases addr with
  | none =>
      have h0 : afi = 0 := h
      subst h0
      exact ⟨[], by simp [condSourceAddfield], fun r => by simp [condSourceGetfield]⟩
  | some a =>
      have ha : addrValid afi a := h
      obtain ⟨ea, hea, _, hga⟩ := addr_rt ha
      have hne : afi ≠ 0 := by rcases ha with ⟨hx, _⟩ | ⟨hx, _⟩ <;> omega
      exact ⟨ea, by simp [condSourceAddfield, hne, hea],
        fun r => by simp [condSourceGetfield, hne, hga]⟩

/-! ## `LISP_MapRequest` (src 179–193) -/

/-- `LISP_MapRequest`: `FieldLenField("itr_rloc_count", 0, "itr_rloc_records",
"B", count_of="itr_rloc_records", adjust=lambda pkt,x: x + 1)` (class default
0, i.e. `some 0`), the same for `request_count` over `request_records`, an
`XLongField` nonce (default 0), a `ShortField` source AFI (default 0), the
conditional source address (default `None`), then two `PacketListField`s
(defaults `[]`) with `count_from = pkt.itr_rloc_count + 1` and
`pkt.request_count + 1`. -/
structure LISP_MapRequest where
  itr_rloc_count : Option Nat
  request_count : Option Nat
  nonce : Nat
  source_afi : Nat
  source_address : Option Nat
  itr_rloc_records : List LISP_AFI_Address
  request_records : List LISP_MapRequestRecord
deriving DecidableEq, Repr

namespace LISP_MapRequest

/-- Dissect a Map-Request body, mirroring `do_dissect`: an input exhausted at
a field boundary ends the dissection successfully with the remaining fields
at their class defaults (in particular, a buffer ending right after a nonzero
`source_afi` leaves `source_address` at its default `None`).  The checks
before the two record lists are subsumed by the lists' own loops. -/
def decode (s : List Bool) : Option (LISP_MapRequest × List Bool) :=
  if s.isEmpty then some (⟨some 0, some 0, 0, 0, none, [], []⟩, [])
  else match readBits 8 s with
  | none => none
  | some (ic, s1) =>
  if s1.isEmpty then some (⟨some ic, some 0, 0, 0, none, [], []⟩, [])
  else match readBits 8 s1 with
  | none => none
  | some (rc, s2) =>
  if s2.isEmpty then some (⟨some ic, some rc, 0, 0, none, [], []⟩, [])
  else match readBits 64 s2 with
  | none => none
  | some (nonce, s3) =>
  if s3.isEmpty then some (⟨some ic, some rc, nonce, 0, none, [], []⟩, [])
  else match readBits 16 s3 with
  | none => none
  | some (safi, s4) =>
  if s4.isEmpty then some (⟨some ic, some rc, nonce, safi, none, [], []⟩, [])
  else match condSourceGetfield safi s4 with
  | none => none
  | some (saddr, s5) =>
  match parseList LISP_AFI_Address.decode (ic + 1) s5 with
  | none => none
  | some (itrs, s6) =>
  match parseList LISP_MapRequestRecord.decode (rc + 1) s6 with
  | none => none
  | some (reqs, s7) =>
      some (⟨some ic, some rc, nonce, safi, saddr, itrs, reqs⟩, s7)

def encode (m : LISP_MapRequest) : Option (List Bool) :=
  match encodeList LISP_AFI_Address.encode m.itr_rloc_records with
  | none => none
  | some itrOut =>
  match encodeList LISP_MapRequestRecord.encode m.request_records with
  | none => none
  | some reqOut =>
  match writeFieldLen m.itr_rloc_count (fun v => v + 1) (itrOut.length / 8) with
  | none => none
  | some f1 =>
  match writeFieldLen m.request_count (fun v => v + 1) (reqOut.length / 8) with
  | none => none
  | some f2 =>
  match writeField 64 m.nonce with
  | none => none
  | some f3 =>
  match writeField 16 m.source_afi with
  | none => none
  | some f4 =>
  match condSourceAddfield m.source_afi m.source_address with
  | none => none
  | some f5 => some (f1 ++ f2 ++ f3 ++ f4 ++ f5 ++ itrOut ++ reqOut)

/-- Wire-consistent Map-Request trees: every count field holds the value the
decoder would pair with its list (the −1-offset rule of `count_from = wire+1`),
addresses fit their families, scalars fit their widths. -/
def valid (m : LISP_MapRequest) : Prop :=
  m.itr_rloc_count = some (m.itr_rloc_records.length - 1) ∧
  1 ≤ m.itr_rloc_records.length ∧ m.itr_rloc_records.length ≤ 256 ∧
  m.request_count = some (m.request_records.length - 1) ∧
  1 ≤ m.request_records.length ∧ m.request_records.length ≤ 256 ∧
  m.nonce < 2 ^ 64 ∧ condSourceValid m.source_afi m.source_address ∧
  (∀ a ∈ m.itr_rloc_records, a.valid) ∧ ∀ q ∈ m.request_records, q.valid

instance : DecidablePred valid := fun m => by unfold valid; infer_instance

theorem mapRequest_rt {m : LISP_MapRequest} (h : m.valid) :
    ∃ e, m.encode = some e ∧ ∀ r, decode (e ++ r) = some (m, r) := by
  obtain ⟨hic, hi1, hi256, hrc, hr1, hr256, hn, hsrc, hitr, hreq⟩ := h
  have hsafi : m.source_afi < 2 ^ 16 := by
    cases hsa : m.source_address with
    | none => rw [hsa] at hsrc; simp only [condSourceValid] at hsrc; omega
    | some a =>
        rw [hsa] at hsrc
        exact afi_lt_of_addrValid hsrc
  obtain ⟨esrc, hesrc, hgsrc⟩ := condSource_rt hsrc
  have helemI : ∀ a ∈ m.itr_rloc_records, ∃ e, LISP_AFI_Address.encode a = some e ∧
      e ≠ [] ∧ ∀ r, LISP_AFI_Address.decode (e ++ r) = some (a, r) :=
    fun a ha => LISP_AFI_Address.afiAddr_rt (hitr a ha)
  have helemR : ∀ q ∈ m.request_records, ∃ e,
      LISP_MapRequestRecord.encode q = some e ∧ e ≠ [] ∧
      ∀ r, LISP_MapRequestRecord.decode (e ++ r) = some (q, r) :=
    fun q hq => LISP_MapRequestRecord.reqRecord_rt (hreq q hq)
  obtain ⟨itrOut, hiout⟩ :=
    encodeList_exists fun a ha => ⟨_, (helemI a ha).choose_spec.1⟩
  obtain ⟨reqOut, hrout⟩ :=
    encodeList_exists fun q hq => ⟨_, (helemR q hq).choose_spec.1⟩
  have hitrne : itrOut.isEmpty = false :=
    encodeList_isEmpty_false hiout
      (by intro hc; rw [hc] at hi1; simp at hi1)
      (fun a ha => by
        obtain ⟨e, he, hene, -⟩ := helemI a ha
        exact ⟨e, he, hene⟩)
  have hplI := parseList_append m.itr_rloc_records itrOut hiout helemI
  have hplR := parseList_append m.request_records reqOut hrout helemR
  have hwic := writeFieldLen_some (k := m.itr_rloc_records.length - 1)
    (fun v => v + 1) (itrOut.length / 8) (by omega)
  have hwrc := writeFieldLen_some (k := m.request_records.length - 1)
    (fun v => v + 1) (reqOut.length / 8) (by omega)
  have hkI : m.itr_rloc_records.length - 1 + 1 = m.itr_rloc_records.length := by
    omega
  have hkR : m.request_records.length - 1 + 1 = m.request_records.length := by
    omega
  have hcI : m.itr_rloc_records.length - 1 < 2 ^ 8 := by omega
  have hcR : m.request_records.length - 1 < 2 ^ 8 := by omega
  refine ⟨natToBits 8 (m.itr_rloc_records.length - 1) ++
    natToBits 8 (m.request_records.length - 1) ++ natToBits 64 m.nonce ++
    natToBits 16 m.source_afi ++ esrc ++ itrOut ++ reqOut, ?_, fun r => ?_⟩
  · simp [encode, hiout, hrout, hic, hrc, hwic, hwrc, writeField, hn, hsafi,
      hesrc, -Nat.reducePow]
  · simp [decode, List.append_assoc, readBits_append, hcI, hcR, hn, hsafi,
      hgsrc, hkI, hkR, hplI, hplR, hic.symm, hrc.symm, isEmpty_append,
      isEmpty_natToBits, hitrne, -Nat.reducePow]

end LISP_MapRequest

/-! ## `LISP_MapReply` (src 195–203) -/

/-- `LISP_MapReply`: an 8-bit reserved `BitField` (default 0),
`FieldLenField("map_count", 0, "map_records", "B", count_of="map_records",
adjust=lambda pkt,x: x/16 - 1)` (class default 0), an `XLongField` nonce
(default 0), then a `PacketListField` of `LISP_MapRecord` (default `[]`) with
`count_from = pkt.map_count + 1`. -/
structure LISP_MapReply where
  reserved : Nat
  map_count : Option Nat
  nonce : Nat
  map_records : List LISP_MapRecord
deriving DecidableEq, Repr

namespace LISP_MapReply

def decode (s : List Bool) : Option (LISP_MapReply × List Bool) :=
  if s.isEmpty then some (⟨0, some 0, 0, []⟩, [])
  else match readBits 8 s with
  | none => none
  | some (rsv, s1) =>
  if s1.isEmpty then some (⟨rsv, some 0, 0, []⟩, [])
  else match readBits 8 s1 with
  | none => none
  | some (mc, s2) =>
  if s2.isEmpty then some (⟨rsv, some mc, 0, []⟩, [])
  else match readBits 64 s2 with
  | none => none
  | some (nonce, s3) =>
  match parseList LISP_MapRecord.decode (mc + 1) s3 with
  | none => none
  | some (recs, s4) => some (⟨rsv, some mc, nonce, recs⟩, s4)

def encode (m : LISP_MapReply) : Option (List Bool) :=
  match encodeList LISP_MapRecord.encode m.map_records with
  | none => none
  | some recsOut =>
  match writeFieldLen m.map_count (fun v => v / 16 - 1) (recsOut.length / 8) with
  | none => none
  | some f2 =>
  match writeField 64 m.nonce with
  | none => none
  | some f3 => some (writeBits 8 m.reserved ++ f2 ++ f3 ++ recsOut)

def valid (m : LISP_MapReply) : Prop :=
  m.reserved < 2 ^ 8 ∧ m.map_count = some (m.map_records.length - 1) ∧
  1 ≤ m.map_records.length ∧ m.map_records.length ≤ 256 ∧ m.nonce < 2 ^ 64 ∧
  ∀ rec ∈ m.map_records, rec.valid

instance : DecidablePred valid := fun m => by unfold valid; infer_instance

theorem mapReply_rt {m : LISP_MapReply} (h : m.valid) :
    ∃ e, m.encode = some e ∧ ∀ r, decode (e ++ r) = some (m, r) := by
  obtain ⟨hrsv, hmc, h1, h256, hn, hrecs⟩ := h
  have helem : ∀ x ∈ m.map_records, ∃ e, LISP_MapRecord.encode x = some e ∧
      e ≠ [] ∧ ∀ r, LISP_MapRecord.decode (e ++ r) = some (x, r) :=
    fun x hx => LISP_MapRecord.mapRecord_rt (hrecs x hx)
  obtain ⟨recsOut, hrout⟩ :=
    encodeList_exists fun x hx => ⟨_, (helem x hx).choose_spec.1⟩
  have hpl := parseList_append m.map_records recsOut hrout helem
  have hwmc := writeFieldLen_some (k := m.map_records.length - 1)
    (fun v => v / 16 - 1) (recsOut.length / 8) (by omega)
  have hk : m.map_records.length - 1 + 1 = m.map_records.length := by omega
  have hc : m.map_records.length - 1 < 2 ^ 8 := by omega
  refine ⟨writeBits 8 m.reserved ++ natToBits 8 (m.map_records.length - 1) ++
    natToBits 64 m.nonce ++ recsOut, ?_, fun r => ?_⟩
  · simp [encode, hrout, hmc, hwmc, writeField, hn, -Nat.reducePow]
  · simp [decode, writeBits, List.append_assoc, readBits_append, hrsv, hc, hn,
      hk, hpl, hmc.symm, isEmpty_append, isEmpty_natToBits, -Nat.reducePow]

end LISP_MapReply

/-! ## `LISP_MapRegister` (src 205–216) -/

/-- `LISP_MapRegister`: `FieldLenField("register_count", None,
"register_records", "B", count_of="register_records",
adjust=lambda pkt,x: x/16 - 1)` (class default `None`), nonce, `ShortField`
key id, `ShortField` authentication length (defaults 0), `StrLenField`
authentication data (class default `None`) read at exactly
`authentication_length` bytes, then records (default `[]`) with
`count_from = pkt.register_count + 1`. -/
structure LISP_MapRegister where
  register_count : Option Nat
  nonce : Nat
  key_id : Nat
  authentication_length : Nat
  authentication_data : Option (List Nat)
  register_records : List LISP_MapRecord
deriving DecidableEq, Repr

namespace LISP_MapRegister

def decode (s : List Bool) : Option (LISP_MapRegister × List Bool) :=
  if s.isEmpty then some (⟨none, 0, 0, 0, none, []⟩, [])
  else match readBits 8 s with
  | none => none
  | some (rgc, s1) =>
  if s1.isEmpty then some (⟨some rgc, 0, 0, 0, none, []⟩, [])
  else match readBits 64 s1 with
  | none => none
  | some (nonce, s2) =>
  if s2.isEmpty then some (⟨some rgc, nonce, 0, 0, none, []⟩, [])
  else match readBits 16 s2 with
  | none => none
  | some (kid, s3) =>
  if s3.isEmpty then some (⟨some rgc, nonce, kid, 0, none, []⟩, [])
  else match readBits 16 s3 with
  | none => none
  | some (alen, s4) =>
  if s4.isEmpty then some (⟨some rgc, nonce, kid, alen, none, []⟩, [])
  else match readStr alen s4 with
  | (adata, s5) =>
  match parseList LISP_MapRecord.decode (rgc + 1) s5 with
  | none => none
  | some (recs, s6) =>
      some (⟨some rgc, nonce, kid, alen, some adata, recs⟩, s6)

def encode (m : LISP_MapRegister) : Option (List Bool) :=
  match encodeList LISP_MapRecord.encode m.register_records with
  | none => none
  | some recsOut =>
  match writeFieldLen m.register_count (fun v => v / 16 - 1)
      (recsOut.length / 8) with
  | none => none
  | some f1 =>
  match writeField 64 m.nonce with
  | none => none
  | some f2 =>
  match writeField 16 m.key_id with
  | none => none
  | some f3 =>
  match writeField 16 m.authentication_length with
  | none => none
  | some f4 =>
      some (f1 ++ f2 ++ f3 ++ f4 ++ bytesToBits (strI2m m.authentication_data)
        ++ recsOut)

def valid (m : LISP_MapRegister) : Prop :=
  m.register_count = some (m.register_records.length - 1) ∧
  1 ≤ m.register_records.length ∧ m.register_records.length ≤ 256 ∧
  m.nonce < 2 ^ 64 ∧ m.key_id < 2 ^ 16 ∧
  authFieldValid m.authentication_length m.authentication_data ∧
  ∀ rec ∈ m.register_records, rec.valid

instance : DecidablePred valid := fun m => by unfold valid; infer_instance

theorem mapRegister_rt {m : LISP_MapRegister} (h : m.valid) :
    ∃ e, m.encode = some e ∧ ∀ r, decode (e ++ r) = some (m, r) := by
  obtain ⟨hrgc, h1, h256, hn, hkid, hauthv, hrecs⟩ := h
  cases hauth : m.authentication_data with
  | none => rw [hauth] at hauthv; exact hauthv.elim
  | some adata =>
  rw [hauth] at hauthv
  obtain ⟨halen, halen16, hbytes⟩ := hauthv
  have helem : ∀ x ∈ m.register_records, ∃ e, LISP_MapRecord.encode x = some e ∧
      e ≠ [] ∧ ∀ r, LISP_MapRecord.decode (e ++ r) = some (x, r) :=
    fun x hx => LISP_MapRecord.mapRecord_rt (hrecs x hx)
  obtain ⟨recsOut, hrout⟩ :=
    encodeList_exists fun x hx => ⟨_, (helem x hx).choose_spec.1⟩
  have hrecne : recsOut.isEmpty = false :=
    encodeList_isEmpty_false hrout
      (by intro hc; rw [hc] at h1; simp at h1)
      (fun x hx => by
        obtain ⟨e, he, hene, -⟩ := helem x hx
        exact ⟨e, he, hene⟩)
  have hpl := parseList_append m.register_records recsOut hrout helem
  have hwcnt := writeFieldLen_some (k := m.register_records.length - 1)
    (fun v => v / 16 - 1) (recsOut.length / 8) (by omega)
  have hk : m.register_records.length - 1 + 1 = m.register_records.length := by
    omega
  have hc : m.register_records.length - 1 < 2 ^ 8 := by omega
  have halen' : m.authentication_length < 2 ^ 16 := by omega
  refine ⟨natToBits 8 (m.register_records.length - 1) ++ natToBits 64 m.nonce ++
    natToBits 16 m.key_id ++ natToBits 16 m.authentication_length ++
    bytesToBits adata ++ recsOut, ?_, fun r => ?_⟩
  · simp [encode, hrout, hrgc, hwcnt, writeField, hn, hkid, halen', hauth,
      strI2m, -Nat.reducePow]
  · have hstr : readStr m.authentication_length
        (bytesToBits adata ++ (recsOut ++ r)) = (adata, recsOut ++ r) := by
      rw [halen]
      exact readStr_append _ hbytes
    simp [decode, List.append_assoc, readBits_append, hc, hn, hkid, halen',
      hstr, hk, hpl, hrgc.symm, hauth.symm, isEmpty_append, isEmpty_natToBits,
      hrecne, -Nat.reducePow]

end LISP_MapRegister

/-! ## `LISP_MapNotify` (src 218–231) -/

/-- `LISP_MapNotify`: a 12-bit reserved `BitField`, a reserved `ByteField`,
`FieldLenField("notify_count", None, "notify_records", "B",
count_of="notify_records")` (class default `None`, default `adjust`), nonce,
key id, authentication length/data as in Register, then records with
`count_from = pkt.notify_count` — no `+ 1`, unlike the other three types.
The field layout is the declared data model only: the class can never run
(see `decode`/`encode`). -/
structure LISP_MapNotify where
  reserved : Nat
  reserved_fields : Nat
  notify_count : Option Nat
  nonce : Nat
  key_id : Nat
  authentication_length : Nat
  authentication_data : Option (List Nat)
  notify_records : List LISP_MapRecord
deriving DecidableEq, Repr

namespace LISP_MapNotify

/-- Dissecting a Map-Notify always fails.  The class opens with
`BitField("reserved", 0, 12)` followed by a plain `ByteField`:
a 12-bit read is not byte-aligned, so `BitField.getfield` hands back a
`(bytes, bit-offset)` carry tuple, and the `ByteField`'s `struct.unpack`
then raises `TypeError` on that tuple (on fewer than 2 bytes the 12-bit
read itself raises `struct.error`).  The dissection pipeline never passes
an empty payload to a payload class (`do_dissect_payload` skips empty
remainders), so every dissection this class receives fails; `notify_count`
is never read at any offset. -/
def decode (s : List Bool) : Option (LISP_MapNotify × List Bool) :=
  match readBits 12 s with
  | none => none
  | some _ => none

/-- Building a Map-Notify always fails: `BitField.addfield` returns a
`(bytes, bits-done, value)` carry tuple after the misaligned 12-bit reserved
field, and the following `ByteField.addfield` concatenates that tuple with a
`str`, raising `TypeError` before any later field — `notify_count` included —
is emitted. -/
def encode (_ : LISP_MapNotify) : Option (List Bool) := none

/-- The wire-consistent Map-Notify trees the declared field layout describes
(counts matching their lists with no offset, addresses matching their
families) — none of them is buildable, see `encode`. -/
def valid (m : LISP_MapNotify) : Prop :=
  m.reserved < 2 ^ 12 ∧ m.reserved_fields < 2 ^ 8 ∧
  m.notify_count = some m.notify_records.length ∧
  m.notify_records.length < 256 ∧ m.nonce < 2 ^ 64 ∧ m.key_id < 2 ^ 16 ∧
  authFieldValid m.authentication_length m.authentication_data ∧
  ∀ rec ∈ m.notify_records, rec.valid

instance : DecidablePred valid := fun m => by unfold valid; infer_instance

end LISP_MapNotify

theorem notify_decode_eq_none (s : List Bool) :
    LISP_MapNotify.decode s = none := by
  cases h : readBits 12 s <;> simp [LISP_MapNotify.decode, h]

/-! ## `LISP_Type` (src 51–72) and the scapy layer bindings (src 248–255) -/

/-- `LISP_Type`: a 4-bit `BitEnumField` type discriminant followed by
flag/pad bit fields that are `ConditionalField`s on the discriminant value.
`flags` holds the value of those conditional bits (0 bits wide — hence 0 —
for a discriminant none of the conditions match). -/
structure LISP_Type where
  packettype : Nat
  flags : Nat
deriving DecidableEq, Repr

/-- Total width of the `ConditionalField` flag/pad fields of `LISP_Type` that
are active for a given discriminant: 6+6 for maprequest, 3+9 for mapreply,
1+18+1 for mapregister, 12 for mapnotify, 1+27 for the encapsulated type,
and none for any other value. -/
def headerFlagBits : Nat → Nat
  | 1 => 12
  | 2 => 12
  | 3 => 20
  | 4 => 12
  | 8 => 28
  | _ => 0

/-- What follows a dissected `LISP_Type` layer.  `bind_layers` (src 250–255)
registers payload classes for discriminants 1, 2, 3, 4 and 8; for any other
discriminant scapy falls back to its default payload class and keeps the
remaining bytes as an uninterpreted raw payload.  A payload class whose
dissection raises is also replaced by a raw payload (`do_dissect_payload`
catches the exception) — this is what always happens to a Map-Notify body.
Discriminant 8 binds the `Version` helper (src 76–81), which only sniffs
whether the first payload byte is `0x45` (IPv4) and hands the bytes to the
external IP stack. -/
inductive LISP_Body where
  | maprequest (m : LISP_MapRequest)
  | mapreply (m : LISP_MapReply)
  | mapregister (m : LISP_MapRegister)
  | mapnotify (m : LISP_MapNotify)
  | encapsulated (isV4 : Bool) (payload : List Bool)
  | rawbody (payload : List Bool)
deriving DecidableEq, Repr

/-- Dissect one LISP control-plane message from its UDP payload bytes:
read the `LISP_Type` header (4-bit discriminant plus its conditional
flag/pad bits), then dispatch on the discriminant per `bind_layers`.
An empty remainder attaches no payload layer at all (`if s:` in
`do_dissect_payload`), modelled as an empty raw body; a bound payload class
whose dissection fails is replaced by the raw remainder.  Returns the
header, the body, and any leftover bits. -/
def decode_message (pkt : List Nat) : Option (LISP_Type × LISP_Body × List Bool) :=
  match readBits 4 (bytesToBits pkt) with
  | none => none
  | some (t, s1) =>
  match readBits (headerFlagBits t) s1 with
  | none => none
  | some (fl, s2) =>
  if s2.isEmpty then some (⟨t, fl⟩, LISP_Body.rawbody [], [])
  else match t with
  | 1 =>
      match LISP_MapRequest.decode s2 with
      | some (m, r) => some (⟨t, fl⟩, LISP_Body.maprequest m, r)
      | none => some (⟨t, fl⟩, LISP_Body.rawbody s2, [])
  | 2 =>
      match LISP_MapReply.decode s2 with
      | some (m, r) => some (⟨t, fl⟩, LISP_Body.mapreply m, r)
      | none => some (⟨t, fl⟩, LISP_Body.rawbody s2, [])
  | 3 =>
      match LISP_MapRegister.decode s2 with
      | some (m, r) => some (⟨t, fl⟩, LISP_Body.mapregister m, r)
      | none => some (⟨t, fl⟩, LISP_Body.rawbody s2, [])
  | 4 =>
      match LISP_MapNotify.decode s2 with
      | some (m, r) => some (⟨t, fl⟩, LISP_Body.mapnotify m, r)
      | none => some (⟨t, fl⟩, LISP_Body.rawbody s2, [])
  | 8 => some (⟨t, fl⟩, LISP_Body.encapsulated
      (decide (s2.take 8 = natToBits 8 0x45)) s2, [])
  | _ => some (⟨t, fl⟩, LISP_Body.rawbody s2, [])

/-! ## Claims -/

theorem condSourceGetfield_inv {afi : Nat} {s : List Bool} {v : Option Nat}
    {r : List Bool} (h : condSourceGetfield afi s = some (v, r)) :
    (v.isSome → afi ≠ 0) ∧ (afi = 0 → v = none) := by
  unfold condSourceGetfield at h
  split at h
  · rename_i hafi
    exact ⟨fun _ => hafi, fun h0 => absurd h0 hafi⟩
  · rename_i hafi
    simp only [Option.some.injEq, Prod.mk.injEq] at h
    exact ⟨fun hs => by rw [← h.1] at hs; simp at hs, fun _ => h.1.symm⟩

/-- A Map-Record with an IPv4 EID and no locators, used by the C1 inputs. -/
def C1rec : LISP_MapRecord := ⟨60, some 0, 24, 0, 0, 0, 0, 1, some 0xC0000201, []⟩

/-- C1 inputs: one concrete wire-consistent message per variant. -/
def C1req : LISP_MapRequest :=
  ⟨some 0, some 0, 1, 0, none, [⟨1, some 0x0A000001⟩], [⟨0, 32, 1, some 0xC0000201⟩]⟩

def C1rep : LISP_MapReply := ⟨0, some 0, 2, [C1rec]⟩

def C1reg : LISP_MapRegister := ⟨some 0, 3, 1, 2, some [0xAB, 0xCD], [C1rec]⟩

def C1not : LISP_MapNotify := ⟨0, 0, some 1, 4, 1, 0, some [], [C1rec]⟩

/-- C1 counterexample: a structurally valid Map-Notify has no encoding at
all — the build raises at the misaligned reserved fields before any byte is
produced — so `decode(encode(m)) = m` fails for the MapNotify variant. -/
theorem C1_counterexample : C1not.valid ∧ LISP_MapNotify.encode C1not = none :=
  ⟨by decide, rfl⟩

/-- C1 (amended): for every structurally valid MapRequest, MapReply and
MapRegister — all count fields consistent with their sequence lengths under
each type's offset rule, every address matching its declared family's length,
all scalars in range — decoding the bytes produced by encoding `m` yields `m`
exactly, with no leftover input.  The fourth variant, MapNotify, cannot be
encoded at all (every build raises at its misaligned reserved fields), so the
round-trip claim cannot extend to it. -/
theorem C1_roundtrip_three_variants :
    (∀ m : LISP_MapRequest, m.valid →
      ∃ e, m.encode = some e ∧ LISP_MapRequest.decode e = some (m, [])) ∧
    (∀ m : LISP_MapReply, m.valid →
      ∃ e, m.encode = some e ∧ LISP_MapReply.decode e = some (m, [])) ∧
    (∀ m : LISP_MapRegister, m.valid →
      ∃ e, m.encode = some e ∧ LISP_MapRegister.decode e = some (m, [])) ∧
    (∀ m : LISP_MapNotify, m.encode = none) := by
  refine ⟨fun m hm => ?_, fun m hm => ?_, fun m hm => ?_, fun m => rfl⟩
  · obtain ⟨e, he, hd⟩ := LISP_MapRequest.mapRequest_rt hm
    exact ⟨e, he, by simpa using hd []⟩
  · obtain ⟨e, he, hd⟩ := LISP_MapReply.mapReply_rt hm
    exact ⟨e, he, by simpa using hd []⟩
  · obtain ⟨e, he, hd⟩ := LISP_MapRegister.mapRegister_rt hm
    exact ⟨e, he, by simpa using hd []⟩

theorem C1_witness :
    (∃ e, C1req.encode = some e ∧ LISP_MapRequest.decode e = some (C1req, [])) ∧
    (∃ e, C1rep.encode = some e ∧ LISP_MapReply.decode e = some (C1rep, [])) ∧
    (∃ e, C1reg.encode = some e ∧ LISP_MapRegister.decode e = some (C1reg, [])) ∧
    LISP_MapNotify.encode C1not = none :=
  ⟨C1_roundtrip_three_variants.1 C1req (by decide),
   C1_roundtrip_three_variants.2.1 C1rep (by decide),
   C1_roundtrip_three_variants.2.2.1 C1reg (by decide),
   C1_roundtrip_three_variants.2.2.2 C1not⟩

/-- An IPv4 locator (12 wire bytes), used by the C2 and C5 inputs. -/
def C2loc : LISP_Locator_Record := ⟨1, 2, 3, 4, 0, 0, 1, some 0x0A000001⟩

/-- A Map-Record with an IPv4 EID and one locator: 28 wire bytes. -/
def C2rec : LISP_MapRecord :=
  ⟨60, some 1, 24, 0, 0, 0, 0, 1, some 0xC0000201, [C2loc]⟩

/-- A Map-Reply carrying exactly 3 records, its `map_count` left unset
(Python `None`), so the encoder recomputes it. -/
def C2rep : LISP_MapReply := ⟨0, none, 2, [C2rec, C2rec, C2rec]⟩

/-- C2: encoding a Map-Reply with exactly 3 records does NOT emit a map_count
wire byte of 2 = count − 1.  The recompute path applies the source's
`adjust=lambda pkt,x: x/16 - 1` to the records' total byte length (3 × 28
bytes here), yielding 84/16 − 1 = 4; and with `map_count` stored (its class
default is 0) the stored value is emitted verbatim. -/
theorem C2_map_count_byte :
    (LISP_MapReply.encode C2rep).map (fun out => bitsToNat ((out.drop 8).take 8))
      = some 4 ∧
    C2rep.map_records.length = 3 ∧ (4 : Nat) ≠ C2rep.map_records.length - 1 :=
  ⟨by rfl, by rfl, by decide⟩

/-- A Map-Request with one IPv4 ITR entry (6 wire bytes) and one request
record (8 wire bytes), both count fields left unset so the encoder
recomputes them. -/
def C3req : LISP_MapRequest :=
  ⟨none, none, 0, 0, none, [⟨1, some 0x0A000001⟩], [⟨0, 24, 1, some 0xC0000201⟩]⟩

/-- C3: the encoder does not emit `len − 1` for the two Map-Request count
bytes.  The source's `adjust=lambda pkt,x: x + 1` is applied to the byte
length of each record list (6 and 8 here), emitting 7 and 9 where the claim
(and the decoder's `count_from = wire + 1`) require 0 and 0. -/
theorem C3_request_count_bytes :
    (LISP_MapRequest.encode C3req).map
        (fun out => (bitsToNat (out.take 8), bitsToNat ((out.drop 8).take 8)))
      = some (7, 9) ∧
    C3req.itr_rloc_records.length = 1 ∧ C3req.request_records.length = 1 ∧
    ((7 : Nat), (9 : Nat)) ≠ (C3req.itr_rloc_records.length - 1,
      C3req.request_records.length - 1) :=
  ⟨by rfl, by rfl, by rfl, by decide⟩

/-- A Map-Record with an IPv4 EID and no locators: 16 wire bytes. -/
def C4rec : LISP_MapRecord := ⟨0, some 0, 0, 0, 0, 0, 0, 1, some 0xC0000201, []⟩

/-- A Map-Notify with one record, as a build input. -/
def C4not : LISP_MapNotify := ⟨0, 0, none, 0, 0, 0, none, [C4rec]⟩

/-- C4: no notify_count byte is ever decoded or encoded.  The class's
misaligned 12-bit reserved field makes every Map-Notify build raise
(`BitField.addfield`'s carry tuple + `str` in the next field's `addfield`)
and every dissection raise (`struct.unpack` on the carry tuple), before
`notify_count` — whose declared `count_from = pkt.notify_count` and identity
`adjust` the claim describes — is ever reached. -/
theorem C4_notify_crash :
    LISP_MapNotify.encode C4not = none ∧
    (∀ m : LISP_MapNotify, m.encode = none) ∧
    (∀ s : List Bool, LISP_MapNotify.decode s = none) :=
  ⟨rfl, fun m => rfl, notify_decode_eq_none⟩

/-- A Map-Record with one IPv4 locator (12 wire bytes) and `locator_count`
left unset, so the encoder recomputes it. -/
def C5rec : LISP_MapRecord := ⟨0, none, 0, 0, 0, 0, 0, 1, some 0xC0000201, [C2loc]⟩

/-- C5: on encode the `locator_count` byte is not recomputed as the number of
locators: when the field is stored (class default 0) the stored value is
emitted verbatim, and on the recompute path the identity `adjust` is applied
to the locators' total byte length — 12 here, not 1. -/
theorem C5_locator_count_byte :
    (LISP_MapRecord.encode C5rec).map
        (fun out => bitsToNat ((out.drop 32).take 8)) = some 12 ∧
    C5rec.locators.length = 1 ∧ (12 : Nat) ≠ C5rec.locators.length :=
  ⟨by rfl, by rfl, by decide⟩

/-- C6: `LISP_AddressField.getfield` has no branch for the Unspecified family
(AFI 0): it falls off the end of the method and returns Python `None` instead
of a `(remaining, value)` pair, so dissecting an AFI-0 address fails whenever
any input follows the AFI — it does not consume 0 bytes and yield an empty
address, contrary to the module's own AFI documentation (src 38–39, 84).
Only when the input ends exactly at the AFI does the dissection survive, and
then because `do_dissect` stops at end of input and never runs the address
field (left at its default `None`). -/
theorem C6_unspecified_family_fails :
    (∀ s : List Bool, LISP_AddressField.getfield 0 s = none) ∧
    (∀ r : List Bool, r ≠ [] →
      LISP_AFI_Address.decode (natToBits 16 0 ++ r) = none) ∧
    LISP_AFI_Address.decode (natToBits 16 0) = some (⟨0, none⟩, []) := by
  refine ⟨fun s => rfl, fun r hr => ?_, by rfl⟩
  simp [LISP_AFI_Address.decode, readBits_append 16 0 r (by norm_num),
    LISP_AddressField.getfield, isEmpty_append, isEmpty_natToBits,
    isEmpty_false_of_ne_nil hr, -Nat.reducePow]

theorem C6_witness :
    LISP_AFI_Address.decode (natToBits 16 0 ++
      [false, false, false, false, false, false, false, false]) = none :=
  C6_unspecified_family_fails.2.1 _ (by decide)

/-- C7 counterexample input: a Map-Request body that ends right after a
NONZERO source AFI (count bytes 0, nonce 0, source AFI 1, nothing further). -/
def C7bad : List Nat := [0, 0, 0, 0, 0, 0, 0, 0, 0, 0, 0, 1]

def C7badMsg : LISP_MapRequest := ⟨some 0, some 0, 0, 1, none, [], []⟩

/-- C7 counterexample: `C7bad` dissects successfully — `do_dissect` stops at
end of input — leaving `source_address` at its default `None` although the
source AFI is 1: the source address is NOT present although the family code
is nonzero, refuting the present-iff-nonzero claim. -/
theorem C7_counterexample :
    LISP_MapRequest.decode (bytesToBits C7bad) = some (C7badMsg, []) ∧
    C7badMsg.source_afi ≠ 0 ∧ C7badMsg.source_address = none :=
  ⟨by rfl, by decide, rfl⟩

/-- C7 (amended): in any successfully dissected Map-Request the source
address can be present only when the 16-bit source AFI read before it is
nonzero, and it is always absent when that AFI is 0; with a nonzero AFI it
may still be absent, when the input ends before the field (see the
counterexample).  When the AFI is 0 the `ConditionalField` is skipped
entirely — no input bits are consumed and the value is absent. -/
theorem C7_source_address_amended :
    (∀ (b : List Bool) (m : LISP_MapRequest) (r : List Bool),
      LISP_MapRequest.decode b = some (m, r) →
      (m.source_address.isSome → m.source_afi ≠ 0) ∧
      (m.source_afi = 0 → m.source_address = none)) ∧
    (∀ s : List Bool, condSourceGetfield 0 s = some (none, s)) := by
  constructor
  · intro b m r h
    unfold LISP_MapRequest.decode at h
    by_cases g0 : b.isEmpty
    · rw [if_pos g0] at h
      simp only [Option.some.injEq, Prod.mk.injEq] at h
      obtain ⟨hm, -⟩ := h
      subst hm
      exact ⟨fun hs => by simp at hs, fun _ => rfl⟩
    · rw [if_neg g0] at h
      cases h1 : readBits 8 b with
      | none => rw [h1] at h; simp at h
      | some p1 =>
      obtain ⟨ic, s1⟩ := p1
      rw [h1] at h
      simp only at h
      by_cases g1 : s1.isEmpty
      · rw [if_pos g1] at h
        simp only [Option.some.injEq, Prod.mk.injEq] at h
        obtain ⟨hm, -⟩ := h
        subst hm
        exact ⟨fun hs => by simp at hs, fun _ => rfl⟩
      · rw [if_neg g1] at h
        cases h2 : readBits 8 s1 with
        | none => rw [h2] at h; simp at h
        | some p2 =>
        obtain ⟨rc, s2⟩ := p2
        rw [h2] at h
        simp only at h
        by_cases g2 : s2.isEmpty
        · rw [if_pos g2] at h
          simp only [Option.some.injEq, Prod.mk.injEq] at h
          obtain ⟨hm, -⟩ := h
          subst hm
          exact ⟨fun hs => by simp at hs, fun _ => rfl⟩
        · rw [if_neg g2] at h
          cases h3 : readBits 64 s2 with
          | none => rw [h3] at h; simp at h
          | some p3 =>
          obtain ⟨nn, s3⟩ := p3
          rw [h3] at h
          simp only at h
          by_cases g3 : s3.isEmpty
          · rw [if_pos g3] at h
            simp only [Option.some.injEq, Prod.mk.injEq] at h
            obtain ⟨hm, -⟩ := h
            subst hm
            exact ⟨fun hs => by simp at hs, fun _ => rfl⟩
          · rw [if_neg g3] at h
            cases h4 : readBits 16 s3 with
            | none => rw [h4] at h; simp at h
            | some p4 =>
            obtain ⟨safi, s4⟩ := p4
            rw [h4] at h
            simp only at h
            by_cases g4 : s4.isEmpty
            · rw [if_pos g4] at h
              simp only [Option.some.injEq, Prod.mk.injEq] at h
              obtain ⟨hm, -⟩ := h
              subst hm
              exact ⟨fun hs => by simp at hs, fun _ => rfl⟩
            · rw [if_neg g4] at h
              cases h5 : condSourceGetfield safi s4 with
              | none => rw [h5] at h; simp at h
              | some p5 =>
              obtain ⟨saddr, s5⟩ := p5
              rw [h5] at h
              simp only at h
              cases h6 : parseList LISP_AFI_Address.decode (ic + 1) s5 with
              | none => rw [h6] at h; simp at h
              | some p6 =>
              obtain ⟨itrs, s6⟩ := p6
              rw [h6] at h
              simp only at h
              cases h7 : parseList LISP_MapRequestRecord.decode (rc + 1) s6 with
              | none => rw [h7] at h; simp at h
              | some p7 =>
              obtain ⟨reqs, s7⟩ := p7
              rw [h7] at h
              simp only [Option.some.injEq, Prod.mk.injEq] at h
              obtain ⟨hm, -⟩ := h
              subst hm
              exact condSourceGetfield_inv h5
  · intro s
    simp [condSourceGetfield]

/-- C7 witness input: a 12-byte Map-Request body with source AFI 0. -/
def C7bytes : List Nat := [0, 0, 0, 0, 0, 0, 0, 0, 0, 1, 0, 0]

def C7msg : LISP_MapRequest := ⟨some 0, some 0, 1, 0, none, [], []⟩

theorem C7_witness :
    LISP_MapRequest.decode (bytesToBits C7bytes) = some (C7msg, []) ∧
    (C7msg.source_address.isSome → C7msg.source_afi ≠ 0) ∧
    (C7msg.source_afi = 0 → C7msg.source_address = none) ∧
    condSourceGetfield 0 [] = some (none, []) :=
  ⟨by rfl,
   (C7_source_address_amended.1 (bytesToBits C7bytes) C7msg [] (by rfl)).1,
   (C7_source_address_amended.1 (bytesToBits C7bytes) C7msg [] (by rfl)).2,
   C7_source_address_amended.2 []⟩

/-- C8 counterexample input: a Map-Record whose locator_count wire byte is 2
but whose buffer holds only ONE complete locator (28 bytes total). -/
def C8bytes : List Nat :=
  [0, 0, 0, 0, 2, 0, 0, 0, 0, 0, 0, 1, 0x0A, 0, 0, 1,
   1, 2, 3, 4, 0, 0, 0, 1, 0xC0, 0, 2, 1]

def C8loc : LISP_Locator_Record := ⟨1, 2, 3, 4, 0, 0, 1, some 0xC0000201⟩

def C8record : LISP_MapRecord :=
  ⟨0, some 2, 0, 0, 0, 0, 0, 1, some 0x0A000001, [C8loc]⟩

/-- C8 counterexample: the truncated buffer does NOT fail — `PacketListField`'s
`while remain:` loop stops silently at end of input, and the dissection
returns a record with `locator_count = 2` but only 1 locator: the silent
short list the claim says is impossible, with no TruncatedInput error raised
(no such error kind exists in the program). -/
theorem C8_counterexample :
    LISP_MapRecord.decode (bytesToBits C8bytes) = some (C8record, []) ∧
    C8record.locator_count = some 2 ∧ C8record.locators.length = 1 := by
  refine ⟨by rfl, rfl, rfl⟩

/-- C8 (amended): a successfully decoded Map-Record always satisfies
`len(locators) ≤ locator_count`, and equality holds whenever any input
remains after the record; a strictly short list (the counterexample) occurs
exactly when the buffer ends inside the locator list.  A buffer ending inside
a fixed-width field fails the dissection (`struct.error`, modelled `none`)
rather than reading out of bounds — but no `TruncatedInput` error kind
exists, and no error at all is raised for a short list. -/
theorem C8_amended :
    ∀ (b : List Bool) (rec : LISP_MapRecord) (r : List Bool),
      LISP_MapRecord.decode b = some (rec, r) →
      ∃ k, rec.locator_count = some k ∧ rec.locators.length ≤ k ∧
        (r ≠ [] → rec.locators.length = k) := by
  intro b rec r h
  unfold LISP_MapRecord.decode at h
  by_cases g0 : b.isEmpty
  · rw [if_pos g0] at h
    simp only [Option.some.injEq, Prod.mk.injEq] at h
    obtain ⟨hm, hr⟩ := h
    subst hm
    exact ⟨0, rfl, by simp, fun hne => absurd hr.symm hne⟩
  · rw [if_neg g0] at h
    cases h1 : readBits 32 b with
    | none => rw [h1] at h; simp at h
    | some p1 =>
    obtain ⟨ttl, s1⟩ := p1
    rw [h1] at h
    simp only at h
    by_cases g1 : s1.isEmpty
    · rw [if_pos g1] at h
      simp only [Option.some.injEq, Prod.mk.injEq] at h
      obtain ⟨hm, hr⟩ := h
      subst hm
      exact ⟨0, rfl, by simp, fun hne => absurd hr.symm hne⟩
    · rw [if_neg g1] at h
      cases h2 : readBits 8 s1 with
      | none => rw [h2] at h; simp at h
      | some p2 =>
      obtain ⟨lc, s2⟩ := p2
      rw [h2] at h
      simp only at h
      by_cases g2 : s2.isEmpty
      · rw [if_pos g2] at h
        simp only [Option.some.injEq, Prod.mk.injEq] at h
        obtain ⟨hm, hr⟩ := h
        subst hm
        exact ⟨lc, rfl, by simp, fun hne => absurd hr.symm hne⟩
      · rw [if_neg g2] at h
        cases h3 : readBits 8 s2 with
        | none => rw [h3] at h; simp at h
        | some p3 =>
        obtain ⟨epl, s3⟩ := p3
        rw [h3] at h
        simp only at h
        by_cases g3 : s3.isEmpty
        · rw [if_pos g3] at h
          simp only [Option.some.injEq, Prod.mk.injEq] at h
          obtain ⟨hm, hr⟩ := h
          subst hm
          exact ⟨lc, rfl, by simp, fun hne => absurd hr.symm hne⟩
        · rw [if_neg g3] at h
          cases h4 : readBits 3 s3 with
          | none => rw [h4] at h; simp at h
          | some p4 =>
          obtain ⟨act, s4⟩ := p4
          rw [h4] at h
          simp only at h
          by_cases g4 : s4.isEmpty
          · rw [if_pos g4] at h
            simp only [Option.some.injEq, Prod.mk.injEq] at h
            obtain ⟨hm, hr⟩ := h
            subst hm
            exact ⟨lc, rfl, by simp, fun hne => absurd hr.symm hne⟩
          · rw [if_neg g4] at h
            cases h5 : readBits 1 s4 with
            | none => rw [h5] at h; simp at h
            | some p5 =>
            obtain ⟨aut, s5⟩ := p5
            rw [h5] at h
            simp only at h
            by_cases g5 : s5.isEmpty
            · rw [if_pos g5] at h
              simp only [Option.some.injEq, Prod.mk.injEq] at h
              obtain ⟨hm, hr⟩ := h
              subst hm
              exact ⟨lc, rfl, by simp, fun hne => absurd hr.symm hne⟩
            · rw [if_neg g5] at h
              cases h6 : readBits 16 s5 with
              | none => rw [h6] at h; simp at h
              | some p6 =>
              obtain ⟨rsv, s6⟩ := p6
              rw [h6] at h
              simp only at h
              by_cases g6 : s6.isEmpty
              · rw [if_pos g6] at h
                simp only [Option.some.injEq, Prod.mk.injEq] at h
                obtain ⟨hm, hr⟩ := h
                subst hm
                exact ⟨lc, rfl, by simp, fun hne => absurd hr.symm hne⟩
              · rw [if_neg g6] at h
                cases h7 : readBits 12 s6 with
                | none => rw [h7] at h; simp at h
                | some p7 =>
                obtain ⟨mvn, s7⟩ := p7
                rw [h7] at h
                simp only at h
                by_cases g7 : s7.isEmpty
                · rw [if_pos g7] at h
                  simp only [Option.some.injEq, Prod.mk.injEq] at h
                  obtain ⟨hm, hr⟩ := h
                  subst hm
                  exact ⟨lc, rfl, by simp, fun hne => absurd hr.symm hne⟩
                · rw [if_neg g7] at h
                  cases h8 : readBits 16 s7 with
                  | none => rw [h8] at h; simp at h
                  | some p8 =>
                  obtain ⟨afi, s8⟩ := p8
                  rw [h8] at h
                  simp only at h
                  by_cases g8 : s8.isEmpty
                  · rw [if_pos g8] at h
                    simp only [Option.some.injEq, Prod.mk.injEq] at h
                    obtain ⟨hm, hr⟩ := h
                    subst hm
                    exact ⟨lc, rfl, by simp, fun hne => absurd hr.symm hne⟩
                  · rw [if_neg g8] at h
                    cases h9 : LISP_AddressField.getfield afi s8 with
                    | none => rw [h9] at h; simp at h
                    | some p9 =>
                    obtain ⟨addr, s9⟩ := p9
                    rw [h9] at h
                    simp only at h
                    cases h10 : parseList LISP_Locator_Record.decode lc s9 with
                    | none => rw [h10] at h; simp at h
                    | some p10 =>
                    obtain ⟨locs, s10⟩ := p10
                    rw [h10] at h
                    simp only [Option.some.injEq, Prod.mk.injEq] at h
                    obtain ⟨hm, hr⟩ := h
                    subst hm
                    subst hr
                    obtain ⟨hle, heq⟩ := parseList_le h10
                    exact ⟨lc, rfl, hle, heq⟩

theorem C8_witness :
    ∃ k, C8record.locator_count = some k ∧ C8record.locators.length ≤ k ∧
      (([] : List Bool) ≠ [] → C8record.locators.length = k) :=
  C8_amended (bytesToBits C8bytes) C8record [] (by rfl)

/-- C9 counterexample: the 2-byte input 0x90 0xAB has discriminant 9, which
is outside {0, 1, 2, 3, 4, 8}; decode_message succeeds with the entire
post-header input as a raw body — no UnknownMessageType failure. -/
theorem C9_counterexample :
    decode_message [0x90, 0xAB] =
      some (⟨9, 0⟩, LISP_Body.rawbody
        [false, false, false, false, true, false,
         true, false, true, false, true, true], []) := by
  rfl

/-- C9 (amended): for every input whose 4-bit discriminant is outside
{0, 1, 2, 3, 4, 8}, decode_message succeeds and returns the entire
post-discriminant input as an unparsed raw body: `bind_layers` registers no
payload class for such a type, so scapy attaches the rest as `Raw`.  The body
is indeed not parsed, but no UnknownMessageType error exists or is raised. -/
theorem C9_unknown_discriminant_raw :
    ∀ (pkt : List Nat) (t : Nat) (s1 : List Bool),
      readBits 4 (bytesToBits pkt) = some (t, s1) →
      t ≠ 0 → t ≠ 1 → t ≠ 2 → t ≠ 3 → t ≠ 4 → t ≠ 8 →
      decode_message pkt = some (⟨t, 0⟩, LISP_Body.rawbody s1, []) := by
  intro pkt t s1 h h0 h1 h2 h3 h4 h8
  have ht : t < 16 := by simpa using readBits_lt h
  unfold decode_message
  rw [h]
  interval_cases t <;>
    first
      | omega
      | (simp only [headerFlagBits]
         rw [readBits_zero]
         simp only
         by_cases hemp : s1.isEmpty
         · have hnil : s1 = [] := by
             cases s1 with
             | nil => rfl
             | cons a t2 => simp at hemp
           rw [if_pos hemp, hnil]
         · rw [if_neg hemp])

theorem C9_witness :
    decode_message [0x90, 0xAB] =
      some (⟨9, 0⟩, LISP_Body.rawbody
        [false, false, false, false, true, false,
         true, false, true, false, true, true], []) :=
  C9_unknown_discriminant_raw [0x90, 0xAB] 9
    [false, false, false, false, true, false,
     true, false, true, false, true, true]
    (by rfl) (by decide) (by decide) (by decide) (by decide) (by decide)
    (by decide)

/-- C10 counterexample input: a well-formed 18-byte Map-Notify message whose
byte at offset 4 is 0xF0 = 240. -/
def C10bytes : List Nat :=
  [0x40, 0, 0, 0, 0xF0, 0, 0, 0, 0, 0, 0, 0, 0, 0, 0, 0, 0, 0]

/-- C10 counterexample: a type-4 message is never parsed as a Map-Notify at
all — the dissection of the body raises at the misaligned 12-bit reserved
field, `do_dissect_payload`'s try/except swallows the error, and the whole
body is attached as a raw payload; no notify_count is read from byte offset 4
(here 240) or anywhere else. -/
theorem C10_counterexample :
    decode_message C10bytes =
      some (⟨4, 0⟩, LISP_Body.rawbody ((bytesToBits C10bytes).drop 16), []) ∧
    C10bytes.getD 4 0 = 240 :=
  ⟨by rfl, by rfl⟩

/-- C10 (amended): the program never reads a notify_count byte at byte offset
4 or at any other offset: every Map-Notify body dissection raises at the
misaligned reserved fields before notify_count is reached, so no decoded
message ever carries a Map-Notify body — type-4 bodies always come back as
raw payloads — and `LISP_MapNotify.decode` fails on every input. -/
theorem C10_notify_never_parsed :
    (∀ (pkt : List Nat) (hdr : LISP_Type) (m : LISP_MapNotify) (r : List Bool),
      decode_message pkt ≠ some (hdr, LISP_Body.mapnotify m, r)) ∧
    (∀ s : List Bool, LISP_MapNotify.decode s = none) := by
  constructor
  · intro pkt hdr m r h
    unfold decode_message at h
    cases ha : readBits 4 (bytesToBits pkt) with
    | none => rw [ha] at h; simp at h
    | some p =>
    obtain ⟨t, s1⟩ := p
    rw [ha] at h
    simp only at h
    cases hb : readBits (headerFlagBits t) s1 with
    | none => rw [hb] at h; simp at h
    | some q =>
    obtain ⟨fl, s2⟩ := q
    rw [hb] at h
    simp only at h
    by_cases hg : s2.isEmpty
    · rw [if_pos hg] at h
      simp at h
    · rw [if_neg hg] at h
      have ht : t < 16 := by simpa using readBits_lt ha
      interval_cases t <;>
        first
          | (simp at h; done)
          | (rw [notify_decode_eq_none s2] at h; simp at h; done)
          | (cases hx : LISP_MapRequest.decode s2 with
             | none => rw [hx] at h; simp at h
             | some p2 =>
               obtain ⟨mm, rr⟩ := p2
               rw [hx] at h
               simp at h)
          | (cases hx : LISP_MapReply.decode s2 with
             | none => rw [hx] at h; simp at h
             | some p2 =>
               obtain ⟨mm, rr⟩ := p2
               rw [hx] at h
               simp at h)
          | (cases hx : LISP_MapRegister.decode s2 with
             | none => rw [hx] at h; simp at h
             | some p2 =>
               obtain ⟨mm, rr⟩ := p2
               rw [hx] at h
               simp at h)
  · exact notify_decode_eq_none

theorem C10_witness :
    decode_message [0x40, 0xAB, 0xCD] ≠
      some (⟨4, 171⟩, LISP_Body.mapnotify ⟨0, 0, none, 0, 0, 0, none, []⟩, []) :=
  C10_notify_never_parsed.1 [0x40, 0xAB, 0xCD] ⟨4, 171⟩
    ⟨0, 0, none, 0, 0, 0, none, []⟩ []

end LispCodec
